import Mathlib

/-!
Shallow embedding of the authenticated request-dispatch layer
(`matrix_sdk/src/http_client.rs`) and of the outgoing-request correlation
model (`matrix_sdk_crypto/src/requests.rs`) of the matrix-rust-sdk excerpt.

The dispatcher's effects (session-lock operations, builder invocations,
transport invocations) are recorded in an explicit `DispatchLog` so that
frame and temporal properties can be stated; the log is pure
instrumentation and does not alter the translated control flow.
-/

/-! ## Wire-level data model -/

/-- HTTP methods (`http::Method`); the dispatcher only distinguishes
POST, PUT and DELETE from everything else. -/
inductive Method
  | get | post | put | delete | head | options | patch | connect
  deriving DecidableEq, Repr

/-- `http::HeaderMap`: one slot per header name, each slot holding the
ordered list of values for that name. -/
abbrev HeaderMap := List (String × List String)

/-- `http::HeaderMap::append`: the value is pushed to the end of the list
of values already associated with the name; a fresh name gets a new slot
at the end of the map. Previous values are kept. -/
def HeaderMap.append : HeaderMap → String → String → HeaderMap
  | [], name, value => [(name, [value])]
  | e :: rest, name, value =>
    if e.1 == name then (e.1, e.2 ++ [value]) :: rest
    else e :: HeaderMap.append rest name value

/-- `http::HeaderMap::get_all`: the values stored in the name's slot. -/
def HeaderMap.getAll : HeaderMap → String → List String
  | [], _ => []
  | e :: rest, name => if e.1 == name then e.2 else HeaderMap.getAll rest name

/-- `http::HeaderMap::drain`: the first value of every slot is yielded
together with `some name`; the remaining values of the same slot follow,
each yielded with `none` in place of the name. -/
def HeaderMap.drain : HeaderMap → List (Option String × String)
  | [] => []
  | e :: rest =>
    (match e.2 with
     | [] => []
     | v :: vs => (some e.1, v) :: vs.map (fun w => ((none : Option String), w)))
    ++ HeaderMap.drain rest

/-- The `HeaderMap` structural invariant: one slot per header name. -/
abbrev HeaderMap.wf (m : HeaderMap) : Prop := (m.map Prod.fst).Nodup

/-- A wire request (`http::Request<Vec<u8>>`): method, URL, headers and
body bytes. -/
structure WireRequest where
  method : Method
  url : String
  headers : HeaderMap
  body : List Nat
  deriving DecidableEq, Repr

/-- The credential record (`matrix_sdk::Session`, defined outside the
excerpt): the dispatcher only ever reads its `access_token`. -/
structure Session where
  access_token : String
  deriving DecidableEq, Repr

/-- The `matrix_sdk::Error` cases reachable from the dispatcher:
`AuthenticationRequired`, a request-construction failure
(`IntoHttpError`), a transport or body-read failure (`reqwest::Error`)
and a response-decoding failure (`FromHttpResponseError`). -/
inductive Error
  | authenticationRequired
  | intoHttp (msg : String)
  | reqwest (msg : String)
  | fromHttpResponse (msg : String)
  deriving DecidableEq, Repr

deriving instance DecidableEq for Except

/-- `reqwest::Response` as the dispatcher observes it: a status code, a
header map, and a body that either buffers fully into bytes or fails
with a `reqwest::Error` while being read (`response.bytes().await`). -/
structure ReqwestResponse where
  status : Nat
  headers : HeaderMap
  body : Except String (List Nat)
  deriving DecidableEq, Repr

/-- The canonical wire response (`http::Response<Vec<u8>>`) built by
`response_to_http_response`: its header collection is populated with
`HeaderMap::insert`, so it keeps at most one value per name and is
modelled as a flat association list. -/
structure HttpResponse where
  status : Nat
  headers : List (String × String)
  body : List Nat
  deriving DecidableEq, Repr

/-! ## The `OutgoingRequest` trait surface and the dispatcher -/

/-- `ruma_api::Metadata` as the dispatcher consumes it: only the static
authentication requirement. -/
structure Metadata where
  requires_authentication : Bool
  deriving DecidableEq, Repr

/-- The `OutgoingRequest` trait surface (`crate::OutgoingRequest`): static
metadata, the wire-request builder (`try_into_http_request`, taking the
homeserver base address and an optional access token), and the decoding
of a canonical wire response into the associated `IncomingResponse` type
`ρ` (`TryFrom<http::Response<Vec<u8>>>`). -/
structure OutgoingRequest (ρ : Type) where
  METADATA : Metadata
  try_into_http_request : String → Option String → Except String WireRequest
  incoming_response_try_from : HttpResponse → Except String ρ

/-- An operation performed on the session `RwLock`. -/
inductive LockOp
  | read | write
  deriving DecidableEq, Repr

/-- Instrumentation record of one dispatch: the operations taken on the
session lock, the access tokens the wire-request builder was invoked
with (in order), the number of invocations of the transport capability,
and the session state once the call returns. -/
structure DispatchLog where
  lockOps : List LockOp
  builtWith : List (Option String)
  transportCalls : Nat
  sessionAfter : Option Session
  deriving DecidableEq, Repr

/-- Lines 81-92 of `http_client.rs`: when the operation requires
authentication the session lock is read; a present session yields its
access token and an absent one fails with `AuthenticationRequired`.
Without the requirement the session lock is not touched and the token is
omitted. The second component records the lock operations performed. -/
def acquireAccessToken (requires : Bool) (session : Option Session) :
    Except Error (Option String) × List LockOp :=
  if requires then
    match session with
    | some s => (Except.ok (some s.access_token), [LockOp.read])
    | none => (Except.error Error.authenticationRequired, [LockOp.read])
  else (Except.ok none, [])

/-- Lines 97-102 of `http_client.rs`: for POST, PUT and DELETE the value
`application/json` is appended (`HeaderMap::append`) to the built
request's content-type header; every other method leaves the request
untouched. -/
def normalizeHeaders (request : WireRequest) : WireRequest :=
  match request.method with
  | Method.post | Method.put | Method.delete =>
    { request with
        headers := HeaderMap.append request.headers "content-type" "application/json" }
  | _ => request

/-- `HttpClient` (lines 67-72): the transport capability
(`inner : Arc<dyn HttpSend>`, modelled by its `send_request` function)
and the homeserver base address. The session lock's state
(`Arc<RwLock<Option<Session>>>`) is passed to `send_request`/`send`
explicitly, mirroring the `session` argument of `send_request`. -/
structure HttpClient where
  inner : WireRequest → Except Error ReqwestResponse
  homeserver : String

/-- `HttpClient::send_request` (lines 75-105): acquire the access token
(reading the session lock only when authentication is required), build
the wire request via the operation's builder, normalize the headers, and
hand the finished request to the transport capability exactly once. -/
def HttpClient.send_request {ρ : Type} (self : HttpClient) (request : OutgoingRequest ρ)
    (session : Option Session) : Except Error ReqwestResponse × DispatchLog :=
  match acquireAccessToken request.METADATA.requires_authentication session with
  | (Except.error e, ops) => (Except.error e, ⟨ops, [], 0, session⟩)
  | (Except.ok access_token, ops) =>
    match request.try_into_http_request self.homeserver access_token with
    | Except.error e => (Except.error (Error.intoHttp e), ⟨ops, [access_token], 0, session⟩)
    | Except.ok req => (self.inner (normalizeHeaders req), ⟨ops, [access_token], 1, session⟩)

/-- The loop of lines 115-119: fold the drained header entries into the
canonical collection, inserting the named entries (`HeaderMap::insert`,
replacing any value previously kept for the name) and skipping the
entries drained without a name. -/
def insertHeader (m : List (String × String)) (key value : String) :
    List (String × String) :=
  if m.any (fun e => e.1 == key) then
    m.map (fun e => if e.1 == key then (key, value) else e)
  else m ++ [(key, value)]

/-- The header loop of `response_to_http_response` as a fold over the
drained entries, starting from the builder's (empty) header map. -/
def collectHeaders (entries : List (Option String × String))
    (acc : List (String × String)) : List (String × String) :=
  entries.foldl
    (fun acc kv =>
      match kv.1 with
      | some key => insertHeader acc key kv.2
      | none => acc) acc

/-- `HttpClient::response_to_http_response` (lines 107-122): keep the
status code, drain the transport response's headers into the canonical
collection (named entries inserted, nameless entries skipped), and
buffer the whole body; a failure while reading the body is returned as
the corresponding `reqwest` error. -/
def response_to_http_response (response : ReqwestResponse) :
    Except Error HttpResponse :=
  let status := response.status
  let headers := collectHeaders (HeaderMap.drain response.headers) []
  match response.body with
  | Except.error e => Except.error (Error.reqwest e)
  | Except.ok body => Except.ok ⟨status, headers, body⟩

/-- `HttpClient::send` (lines 124-136): run `send_request`, normalize the
transport response into the canonical wire shape, and decode it into the
operation's incoming-response type, propagating every failure to the
caller as is. -/
def HttpClient.send {ρ : Type} (self : HttpClient) (request : OutgoingRequest ρ)
    (session : Option Session) : Except Error ρ × DispatchLog :=
  match self.send_request request session with
  | (Except.error e, log) => (Except.error e, log)
  | (Except.ok response, log) =>
    match response_to_http_response response with
    | Except.error e => (Except.error e, log)
    | Except.ok httpResponse =>
      match request.incoming_response_try_from httpResponse with
      | Except.error e => (Except.error (Error.fromHttpResponse e), log)
      | Except.ok r => (Except.ok r, log)

/-! ## The outgoing-request correlation model
(`matrix_sdk_crypto/src/requests.rs`). The concrete ruma wire types the
unions carry (`upload_keys::Request`, `get_keys::IncomingRequest`, the
responses, …) are defined outside the excerpt and out of its scope; each
is modelled as an opaquely carried record (the `&'a` references and the
`Arc` of the source are transparent here). -/

namespace crypto

/-- `upload_keys::Request` (external ruma wire type, carried opaquely). -/
structure KeysUploadRequest where
  payload : String
  deriving DecidableEq, Repr

/-- `get_keys::IncomingRequest` (external ruma wire type). -/
structure KeysQueryRequest where
  payload : String
  deriving DecidableEq, Repr

/-- `send_event_to_device::IncomingRequest` (external ruma wire type). -/
structure ToDeviceRequest where
  payload : String
  deriving DecidableEq, Repr

/-- `upload_keys::Response` (external ruma wire type). -/
structure KeysUploadResponse where
  payload : String
  deriving DecidableEq, Repr

/-- `get_keys::Response` (external ruma wire type). -/
structure KeysQueryResponse where
  payload : String
  deriving DecidableEq, Repr

/-- `send_event_to_device::Response` (external ruma wire type). -/
structure ToDeviceResponse where
  payload : String
  deriving DecidableEq, Repr

/-- `claim_keys::Response` (external ruma wire type). -/
structure KeysClaimResponse where
  payload : String
  deriving DecidableEq, Repr

/-- `uuid::Uuid`: a 128-bit identifier, modelled by its numeric value. -/
structure Uuid where
  val : Nat
  deriving DecidableEq, Repr

/-- The closed union of outgoing operation kinds (lines 33-40). -/
inductive OutgoingRequests
  | KeysUpload (request : KeysUploadRequest)
  | KeysQuery (request : KeysQueryRequest)
  | ToDeviceRequest (request : ToDeviceRequest)
  deriving DecidableEq, Repr

/-- `impl From<KeysQueryRequest> for OutgoingRequests` (lines 42-46). -/
def OutgoingRequests.fromKeysQuery (request : KeysQueryRequest) : OutgoingRequests :=
  OutgoingRequests.KeysQuery request

/-- `impl From<KeysUploadRequest> for OutgoingRequests` (lines 48-52). -/
def OutgoingRequests.fromKeysUpload (request : KeysUploadRequest) : OutgoingRequests :=
  OutgoingRequests.KeysUpload request

/-- `impl From<ToDeviceRequest> for OutgoingRequests` (lines 54-58). -/
def OutgoingRequests.fromToDeviceRequest (request : crypto.ToDeviceRequest) : OutgoingRequests :=
  OutgoingRequests.ToDeviceRequest request

/-- The closed union of incoming response kinds (lines 62-71). -/
inductive IncomingResponse
  | KeysUpload (response : KeysUploadResponse)
  | KeysQuery (response : KeysQueryResponse)
  | ToDevice (response : ToDeviceResponse)
  | KeysClaim (response : KeysClaimResponse)
  deriving DecidableEq, Repr

/-- `impl From<&KeysUploadResponse> for IncomingResponse` (lines 73-77). -/
def IncomingResponse.fromKeysUpload (response : KeysUploadResponse) : IncomingResponse :=
  IncomingResponse.KeysUpload response

/-- `impl From<&KeysQueryResponse> for IncomingResponse` (lines 79-83). -/
def IncomingResponse.fromKeysQuery (response : KeysQueryResponse) : IncomingResponse :=
  IncomingResponse.KeysQuery response

/-- `impl From<&ToDeviceResponse> for IncomingResponse` (lines 85-89). -/
def IncomingResponse.fromToDevice (response : ToDeviceResponse) : IncomingResponse :=
  IncomingResponse.ToDevice response

/-- `impl From<&KeysClaimResponse> for IncomingResponse` (lines 91-95). -/
def IncomingResponse.fromKeysClaim (response : KeysClaimResponse) : IncomingResponse :=
  IncomingResponse.KeysClaim response

/-- The outgoing request envelope `OutgoingRequest` (lines 98-105): a
unique correlation id and the wrapped operation payload. The structure
projections model the source's accessors `request_id()` and `request()`
(lines 107-117), which return references to the two fields. -/
structure OutgoingRequest where
  request_id : Uuid
  request : OutgoingRequests
  deriving DecidableEq, Repr

/-- The constructor tags of `OutgoingRequests`, one per variant. -/
inductive OutgoingRequestsKind
  | KeysUpload | KeysQuery | ToDeviceRequest
  deriving DecidableEq, Repr, Fintype

/-- The tag of an `OutgoingRequests` value. -/
def OutgoingRequests.kind : OutgoingRequests → OutgoingRequestsKind
  | OutgoingRequests.KeysUpload _ => OutgoingRequestsKind.KeysUpload
  | OutgoingRequests.KeysQuery _ => OutgoingRequestsKind.KeysQuery
  | OutgoingRequests.ToDeviceRequest _ => OutgoingRequestsKind.ToDeviceRequest

/-- The constructor tags of `IncomingResponse`, one per variant. -/
inductive IncomingResponseKind
  | KeysUpload | KeysQuery | ToDevice | KeysClaim
  deriving DecidableEq, Repr, Fintype

/-- The tag of an `IncomingResponse` value. -/
def IncomingResponse.kind : IncomingResponse → IncomingResponseKind
  | IncomingResponse.KeysUpload _ => IncomingResponseKind.KeysUpload
  | IncomingResponse.KeysQuery _ => IncomingResponseKind.KeysQuery
  | IncomingResponse.ToDevice _ => IncomingResponseKind.ToDevice
  | IncomingResponse.KeysClaim _ => IncomingResponseKind.KeysClaim

/-- The natural correspondence from the outgoing union's variants into the
response union's variants: each operation kind is matched with the
response kind that resolves it. -/
def kindCorrespondence : OutgoingRequestsKind → IncomingResponseKind
  | OutgoingRequestsKind.KeysUpload => IncomingResponseKind.KeysUpload
  | OutgoingRequestsKind.KeysQuery => IncomingResponseKind.KeysQuery
  | OutgoingRequestsKind.ToDeviceRequest => IncomingResponseKind.ToDevice

end crypto

/-! ## Header-map lemmas -/

/-- Appending a value for a name extends that name's value list by the
value, keeping every previous value. -/
theorem getAll_append_self (m : HeaderMap) (name value : String) :
    HeaderMap.getAll (HeaderMap.append m name value) name
      = HeaderMap.getAll m name ++ [value] := by
  induction m with
  | nil => simp [HeaderMap.append, HeaderMap.getAll]
  | cons e rest ih =>
    cases h : (e.1 == name) with
    | true => simp [HeaderMap.append, HeaderMap.getAll, h]
    | false => simp [HeaderMap.append, HeaderMap.getAll, h, ih]

/-- Appending a value for a name leaves every other name's values
untouched. -/
theorem getAll_append_ne (m : HeaderMap) (name value other : String)
    (h : other ≠ name) :
    HeaderMap.getAll (HeaderMap.append m name value) other
      = HeaderMap.getAll m other := by
  induction m with
  | nil => simp [HeaderMap.append, HeaderMap.getAll, Ne.symm h]
  | cons e rest ih =>
    cases h2 : (e.1 == name) with
    | true =>
      have h3 : (e.1 == other) = false := by
        rw [beq_iff_eq] at h2
        rw [beq_eq_false_iff_ne, h2]
        exact Ne.symm h
      simp [HeaderMap.append, HeaderMap.getAll, h2, h3]
    | false => simp [HeaderMap.append, HeaderMap.getAll, h2, ih]

/-- Claim C1 counterexample: a POST request whose builder set the
content-type header to text/plain still carries text/plain after the
normalization step; the JSON value is appended after it, so the header
is not exactly the single value application/json. -/
theorem c1_counterexample :
    HeaderMap.getAll
        (normalizeHeaders
          ⟨Method.post, "https://example.org/", [("content-type", ["text/plain"])], []⟩).headers
        "content-type"
      = ["text/plain", "application/json"]
    ∧ ["text/plain", "application/json"] ≠ ["application/json"] := by
  exact ⟨by decide, by decide⟩

/-- Claim C1 (amended): for POST, PUT and DELETE the normalization step
appends application/json to the content-type header, so the resulting
content-type values are exactly the values the operation's builder set
followed by application/json (hence exactly application/json when the
builder set none), and every other header name is left unchanged. -/
theorem c1_contentType_appended (request : WireRequest)
    (h : request.method = Method.post ∨ request.method = Method.put
          ∨ request.method = Method.delete) :
    HeaderMap.getAll (normalizeHeaders request).headers "content-type"
      = HeaderMap.getAll request.headers "content-type" ++ ["application/json"]
    ∧ ∀ name, name ≠ "content-type" →
        HeaderMap.getAll (normalizeHeaders request).headers name
          = HeaderMap.getAll request.headers name := by
  have hn : normalizeHeaders request
      = { request with
            headers := HeaderMap.append request.headers "content-type" "application/json" } := by
    unfold normalizeHeaders
    rcases h with h | h | h <;> rw [h]
  rw [hn]
  exact ⟨getAll_append_self _ _ _, fun name hne => getAll_append_ne _ _ _ _ hne⟩

/-- Claim C1 witness: the amended statement at a concrete PUT request
whose builder set content-type to text/plain. -/
theorem c1_contentType_appended_witness :
    HeaderMap.getAll
        (normalizeHeaders
          ⟨Method.put, "https://example.org/", [("content-type", ["text/plain"])], []⟩).headers
        "content-type"
      = HeaderMap.getAll
          (⟨Method.put, "https://example.org/",
            [("content-type", ["text/plain"])], []⟩ : WireRequest).headers
          "content-type" ++ ["application/json"]
    ∧ ∀ name, name ≠ "content-type" →
        HeaderMap.getAll
            (normalizeHeaders
              ⟨Method.put, "https://example.org/",
                [("content-type", ["text/plain"])], []⟩).headers
            name
          = HeaderMap.getAll
              (⟨Method.put, "https://example.org/",
                [("content-type", ["text/plain"])], []⟩ : WireRequest).headers
              name :=
  c1_contentType_appended
    ⟨Method.put, "https://example.org/", [("content-type", ["text/plain"])], []⟩
    (Or.inr (Or.inl rfl))

/-- Claim C8: for every method other than POST, PUT and DELETE the
normalization step returns the request unchanged, headers included. -/
theorem c8_other_methods_untouched (request : WireRequest)
    (h : request.method ≠ Method.post ∧ request.method ≠ Method.put
          ∧ request.method ≠ Method.delete) :
    normalizeHeaders request = request := by
  obtain ⟨h1, h2, h3⟩ := h
  unfold normalizeHeaders
  cases hm : request.method <;> simp_all

/-- Claim C8 witness: a GET request with a builder-set content-type is
returned bit-for-bit unchanged. -/
theorem c8_other_methods_untouched_witness :
    normalizeHeaders
        ⟨Method.get, "https://example.org/", [("content-type", ["text/plain"])], []⟩
      = ⟨Method.get, "https://example.org/", [("content-type", ["text/plain"])], []⟩ :=
  c8_other_methods_untouched
    ⟨Method.get, "https://example.org/", [("content-type", ["text/plain"])], []⟩
    ⟨by decide, by decide, by decide⟩

/-! ## Dispatcher lemmas and claims -/

/-- `send` only post-processes `send_request`'s transport response; the
dispatch log is the one `send_request` produced. -/
theorem send_log_eq {ρ : Type} (self : HttpClient) (request : OutgoingRequest ρ)
    (session : Option Session) :
    (self.send request session).2 = (self.send_request request session).2 := by
  unfold HttpClient.send
  rcases h : self.send_request request session with ⟨r, log⟩
  cases r with
  | error e => simp
  | ok response =>
    cases h2 : response_to_http_response response with
    | error e => simp [h2]
    | ok httpResponse =>
      cases h3 : request.incoming_response_try_from httpResponse with
      | error e => simp [h2, h3]
      | ok v => simp [h2, h3]

/-- Claim C2: for an operation whose metadata requires authentication,
`send` with no session present fails with `AuthenticationRequired`; the
session lock was read once, the wire-request builder was never invoked
and the transport capability was never invoked. -/
theorem c2_authenticationRequired_without_session {ρ : Type} (self : HttpClient)
    (request : OutgoingRequest ρ)
    (h : request.METADATA.requires_authentication = true) :
    self.send request none
      = (Except.error Error.authenticationRequired,
         ⟨[LockOp.read], [], 0, none⟩) := by
  simp [HttpClient.send, HttpClient.send_request, acquireAccessToken, h]

/-- A transport double replying 200 with no headers and an empty body. -/
def testTransport : WireRequest → Except Error ReqwestResponse :=
  fun _ => Except.ok ⟨200, [], Except.ok []⟩

/-- A dispatcher over the transport double. -/
def testClient : HttpClient := ⟨testTransport, "https://example.org/"⟩

/-- An operation fixture requiring authentication: POST, trivial decode. -/
def testAuthOp : OutgoingRequest Nat :=
  ⟨⟨true⟩, fun hs _ => Except.ok ⟨Method.post, hs, [], []⟩,
   fun r => Except.ok r.status⟩

/-- An operation fixture not requiring authentication: GET, trivial
decode. -/
def testNoAuthOp : OutgoingRequest Nat :=
  ⟨⟨false⟩, fun hs _ => Except.ok ⟨Method.get, hs, [], []⟩,
   fun r => Except.ok r.status⟩

/-- Claim C2 witness: the authenticated fixture dispatched without a
session. -/
theorem c2_witness :
    testClient.send testAuthOp none
      = (Except.error Error.authenticationRequired,
         ⟨[LockOp.read], [], 0, none⟩) :=
  c2_authenticationRequired_without_session testClient testAuthOp rfl

/-- Claim C7: for an operation whose metadata does not require
authentication, `send` performs no session-lock operation at all, the
builder is invoked exactly once with the access token omitted (`none`),
and whenever the builder succeeds the transport capability is reached
(exactly one transport invocation) — for any session state, present or
absent. -/
theorem c7_no_auth_skips_session {ρ : Type} (self : HttpClient)
    (request : OutgoingRequest ρ) (session : Option Session)
    (h : request.METADATA.requires_authentication = false) :
    (self.send request session).2.lockOps = []
    ∧ (self.send request session).2.builtWith = [none]
    ∧ ∀ req, request.try_into_http_request self.homeserver none = Except.ok req →
        (self.send request session).2.transportCalls = 1 := by
  rw [send_log_eq]
  unfold HttpClient.send_request
  simp only [acquireAccessToken, h, if_false, Bool.false_eq_true]
  cases h2 : request.try_into_http_request self.homeserver none with
  | error e =>
    refine ⟨rfl, rfl, fun req hreq => ?_⟩
    cases hreq
  | ok req => exact ⟨rfl, rfl, fun _ _ => rfl⟩

/-- Claim C7 witness: the unauthenticated fixture dispatched with no
session present. -/
theorem c7_witness :
    (testClient.send testNoAuthOp none).2.lockOps = []
    ∧ (testClient.send testNoAuthOp none).2.builtWith = [none]
    ∧ ∀ req, testNoAuthOp.try_into_http_request testClient.homeserver none
          = Except.ok req →
        (testClient.send testNoAuthOp none).2.transportCalls = 1 :=
  c7_no_auth_skips_session testClient testNoAuthOp none rfl

/-- Claim C5: every `send` invokes the transport capability at most once;
whenever the authentication step yields a token and the builder succeeds
the transport is invoked exactly once (also when it fails: no retry),
and a transport error is returned to the caller as the very same error
value. -/
theorem c5_one_transport_call_no_retry {ρ : Type} (self : HttpClient)
    (request : OutgoingRequest ρ) (session : Option Session) :
    (self.send request session).2.transportCalls ≤ 1
    ∧ ∀ tok req,
        (acquireAccessToken request.METADATA.requires_authentication session).1
          = Except.ok tok →
        request.try_into_http_request self.homeserver tok = Except.ok req →
        (self.send request session).2.transportCalls = 1
        ∧ ∀ e, self.inner (normalizeHeaders req) = Except.error e →
            (self.send request session).1 = Except.error e := by
  constructor
  · rw [send_log_eq]
    unfold HttpClient.send_request
    split
    · simp
    · split <;> simp
  · intro tok req hacq hbuild
    have hsr : self.send_request request session
        = (self.inner (normalizeHeaders req),
           ⟨(acquireAccessToken request.METADATA.requires_authentication session).2,
            [tok], 1, session⟩) := by
      unfold HttpClient.send_request
      rcases hq : acquireAccessToken request.METADATA.requires_authentication session
        with ⟨res, ops⟩
      rw [hq] at hacq
      simp only at hacq
      subst hacq
      simp [hbuild]
    constructor
    · rw [send_log_eq, hsr]
    · intro e he
      unfold HttpClient.send
      rw [hsr, he]

/-- Claim C9: `send` never mutates the session state: the session value
after any call is the one before it, and the trace of session-lock
operations contains no write. -/
theorem c9_session_read_only {ρ : Type} (self : HttpClient)
    (request : OutgoingRequest ρ) (session : Option Session) :
    (self.send request session).2.sessionAfter = session
    ∧ LockOp.write ∉ (self.send request session).2.lockOps := by
  rw [send_log_eq]
  cases hb : request.METADATA.requires_authentication with
  | false =>
    simp only [HttpClient.send_request, acquireAccessToken, hb, Bool.false_eq_true,
      if_false]
    cases hx : request.try_into_http_request self.homeserver none with
    | error e => simp
    | ok req => simp
  | true =>
    cases session with
    | none =>
      simp [HttpClient.send_request, acquireAccessToken, hb]
    | some s =>
      simp only [HttpClient.send_request, acquireAccessToken, hb, if_true]
      cases hx : request.try_into_http_request self.homeserver (some s.access_token) with
      | error e => simp
      | ok req => simp

/-! ## Correlation-model claims -/

/-- Claim C6: wrapping each supported operation kind into the envelope's
payload union via its conversion and reading the payload back through
the envelope accessor yields the same variant with the same fields as
the original operation. -/
theorem c6_envelope_roundtrip (id : crypto.Uuid) (ru : crypto.KeysUploadRequest)
    (rq : crypto.KeysQueryRequest) (rt : crypto.ToDeviceRequest) :
    (crypto.OutgoingRequest.mk id (crypto.OutgoingRequests.fromKeysUpload ru)).request
        = crypto.OutgoingRequests.KeysUpload ru
    ∧ (crypto.OutgoingRequest.mk id (crypto.OutgoingRequests.fromKeysQuery rq)).request
        = crypto.OutgoingRequests.KeysQuery rq
    ∧ (crypto.OutgoingRequest.mk id
          (crypto.OutgoingRequests.fromToDeviceRequest rt)).request
        = crypto.OutgoingRequests.ToDeviceRequest rt :=
  ⟨rfl, rfl, rfl⟩

/-- Claim C3 counterexample: the outgoing union has three variants, the
response union has four, its KeysClaim variant corresponds to no
outgoing variant, and no bijection between the two variant sets exists:
the unions are not in one-to-one correspondence. -/
theorem c3_counterexample :
    Fintype.card crypto.OutgoingRequestsKind = 3
    ∧ Fintype.card crypto.IncomingResponseKind = 4
    ∧ (∀ k : crypto.OutgoingRequestsKind,
        crypto.kindCorrespondence k ≠ crypto.IncomingResponseKind.KeysClaim)
    ∧ IsEmpty (crypto.OutgoingRequestsKind ≃ crypto.IncomingResponseKind) := by
  refine ⟨by decide, by decide, by decide, ⟨fun e => ?_⟩⟩
  have h := Fintype.card_congr e
  have h1 : Fintype.card crypto.OutgoingRequestsKind = 3 := by decide
  have h2 : Fintype.card crypto.IncomingResponseKind = 4 := by decide
  omega

/-- Claim C3 (amended): every variant of the outgoing union corresponds
to a distinct variant of the response union (KeysUpload to KeysUpload,
KeysQuery to KeysQuery, ToDeviceRequest to ToDevice), every variant tag
of either union is realized by a value of that union, and the
correspondence is injective but not onto: the response union's extra
KeysClaim variant corresponds to no outgoing variant. -/
theorem c3_injection_not_bijection :
    Function.Injective crypto.kindCorrespondence
    ∧ Function.Surjective crypto.OutgoingRequests.kind
    ∧ Function.Surjective crypto.IncomingResponse.kind
    ∧ (∀ s : crypto.IncomingResponseKind,
        s = crypto.IncomingResponseKind.KeysClaim
        ∨ ∃ k : crypto.OutgoingRequestsKind, crypto.kindCorrespondence k = s)
    ∧ ∀ k : crypto.OutgoingRequestsKind,
        crypto.kindCorrespondence k ≠ crypto.IncomingResponseKind.KeysClaim := by
  refine ⟨by decide, ?_, ?_, by decide, by decide⟩
  · intro k
    cases k with
    | KeysUpload => exact ⟨crypto.OutgoingRequests.KeysUpload ⟨""⟩, rfl⟩
    | KeysQuery => exact ⟨crypto.OutgoingRequests.KeysQuery ⟨""⟩, rfl⟩
    | ToDeviceRequest => exact ⟨crypto.OutgoingRequests.ToDeviceRequest ⟨""⟩, rfl⟩
  · intro k
    cases k with
    | KeysUpload => exact ⟨crypto.IncomingResponse.KeysUpload ⟨""⟩, rfl⟩
    | KeysQuery => exact ⟨crypto.IncomingResponse.KeysQuery ⟨""⟩, rfl⟩
    | ToDevice => exact ⟨crypto.IncomingResponse.ToDevice ⟨""⟩, rfl⟩
    | KeysClaim => exact ⟨crypto.IncomingResponse.KeysClaim ⟨""⟩, rfl⟩

/-! ## Response-normalization lemmas -/

/-- One entry per name: the first value of each nonempty slot. This is
what the insert-with-replacement loop produces out of a drained header
map with distinct slot names. -/
def firstValues (m : HeaderMap) : List (String × String) :=
  m.filterMap (fun e => e.2.head?.map (fun v => (e.1, v)))

/-- The fold distributes over appended entry lists. -/
theorem collectHeaders_append (l1 l2 : List (Option String × String))
    (acc : List (String × String)) :
    collectHeaders (l1 ++ l2) acc = collectHeaders l2 (collectHeaders l1 acc) := by
  simp [collectHeaders, List.foldl_append]

/-- Entries drained without a name are skipped by the loop. -/
theorem collectHeaders_nones (ws : List String) (acc : List (String × String)) :
    collectHeaders (ws.map (fun w => ((none : Option String), w))) acc = acc := by
  induction ws with
  | nil => rfl
  | cons w ws ih => exact ih

/-- Inserting a name not yet present in the collection adds it at the
end. -/
theorem insertHeader_fresh (m : List (String × String)) (k v : String)
    (h : m.any (fun e => e.1 == k) = false) :
    insertHeader m k v = m ++ [(k, v)] := by
  simp [insertHeader, h]


/-- The drain-and-insert loop, run over a header map with distinct slot
names starting from a collection disjoint from those names, appends
exactly the first value of each nonempty slot. -/
theorem collectHeaders_drain (m : HeaderMap) (acc : List (String × String))
    (hwf : (m.map Prod.fst).Nodup)
    (hdisj : ∀ p ∈ acc, p.1 ∉ m.map Prod.fst) :
    collectHeaders (HeaderMap.drain m) acc = acc ++ firstValues m := by
  induction m generalizing acc with
  | nil => simp [HeaderMap.drain, collectHeaders, firstValues]
  | cons e rest ih =>
    rcases e with ⟨n, vs⟩
    have hn : n ∉ rest.map Prod.fst := (List.nodup_cons.mp (by simpa using hwf)).1
    have hrest : (rest.map Prod.fst).Nodup := (List.nodup_cons.mp (by simpa using hwf)).2
    cases vs with
    | nil =>
      have hd : HeaderMap.drain ((n, ([] : List String)) :: rest)
          = HeaderMap.drain rest := rfl
      have hdisj2 : ∀ p ∈ acc, p.1 ∉ rest.map Prod.fst := by
        intro p hp hmem
        exact hdisj p hp (List.mem_cons_of_mem _ hmem)
      rw [hd, ih acc hrest hdisj2]
      simp [firstValues]
    | cons v vtl =>
      have hd : HeaderMap.drain ((n, v :: vtl) :: rest)
          = ((some n, v) :: vtl.map (fun w => ((none : Option String), w)))
            ++ HeaderMap.drain rest := rfl
      rw [hd, collectHeaders_append]
      have hstep : collectHeaders
          ((some n, v) :: vtl.map (fun w => ((none : Option String), w))) acc
          = insertHeader acc n v := by
        show collectHeaders (vtl.map (fun w => ((none : Option String), w)))
            (insertHeader acc n v) = insertHeader acc n v
        exact collectHeaders_nones vtl (insertHeader acc n v)
      have hfresh : (acc.any (fun e => e.1 == n)) = false := by
        rw [Bool.eq_false_iff]
        intro hany
        rcases List.any_eq_true.mp hany with ⟨p, hp, hpn⟩
        exact hdisj p hp (by exact beq_iff_eq.mp hpn ▸ List.mem_cons_self _ _)
      have hdisj2 : ∀ p ∈ acc ++ [(n, v)], p.1 ∉ rest.map Prod.fst := by
        intro p hp hmem
        rcases List.mem_append.mp hp with hp | hp
        · exact hdisj p hp (List.mem_cons_of_mem _ hmem)
        · have hpn : p = (n, v) := by simpa using hp
          rw [hpn] at hmem
          exact hn hmem
      rw [hstep, insertHeader_fresh acc n v hfresh, ih (acc ++ [(n, v)]) hrest hdisj2]
      simp [firstValues]

/-- Claim C4 counterexample: a transport response carrying a repeated
header ("x-dup" with values "first" and "second", both well-formed) is
normalized into a canonical response that keeps only the first value;
the well-formed entry ("x-dup", "second") is silently dropped even
though it does not fail any well-formedness check. -/
theorem c4_counterexample :
    response_to_http_response ⟨200, [("x-dup", ["first", "second"])], Except.ok [1, 2]⟩
      = Except.ok ⟨200, [("x-dup", "first")], [1, 2]⟩
    ∧ "second" ∈ HeaderMap.getAll [("x-dup", ["first", "second"])] "x-dup"
    ∧ ("x-dup", "second")
        ∉ (⟨200, [("x-dup", "first")], [1, 2]⟩ : HttpResponse).headers := by
  refine ⟨by decide, by decide, by decide⟩

/-- Claim C4 (amended): the canonical wire response preserves the status
code and the fully buffered body, and a failure while reading the body
is returned as the corresponding I/O (`reqwest`) error rather than a
partial response; the canonical header collection, however, keeps
exactly the first value of each header name of the transport response —
the drained continuation entries of repeated headers are dropped. -/
theorem c4_normalization (response : ReqwestResponse)
    (hwf : HeaderMap.wf response.headers) :
    (∀ body, response.body = Except.ok body →
      response_to_http_response response
        = Except.ok ⟨response.status, firstValues response.headers, body⟩)
    ∧ ∀ e, response.body = Except.error e →
        response_to_http_response response = Except.error (Error.reqwest e) := by
  have hh : collectHeaders (HeaderMap.drain response.headers) []
      = firstValues response.headers := by
    have h := collectHeaders_drain response.headers [] hwf (by simp)
    simpa using h
  constructor
  · intro body hb
    simp [response_to_http_response, hb, hh]
  · intro e he
    simp [response_to_http_response, he]

/-- Claim C4 witness: the amended statement at a concrete transport
response with one single-valued header, one repeated header and one
empty slot. -/
theorem c4_normalization_witness :
    (∀ body,
      (⟨200, [("a", ["x"]), ("b", ["y", "z"]), ("c", [])], Except.ok [7]⟩
          : ReqwestResponse).body = Except.ok body →
      response_to_http_response
          ⟨200, [("a", ["x"]), ("b", ["y", "z"]), ("c", [])], Except.ok [7]⟩
        = Except.ok
            ⟨(⟨200, [("a", ["x"]), ("b", ["y", "z"]), ("c", [])], Except.ok [7]⟩
                : ReqwestResponse).status,
             firstValues (⟨200, [("a", ["x"]), ("b", ["y", "z"]), ("c", [])],
                Except.ok [7]⟩ : ReqwestResponse).headers,
             body⟩)
    ∧ ∀ e,
        (⟨200, [("a", ["x"]), ("b", ["y", "z"]), ("c", [])], Except.ok [7]⟩
            : ReqwestResponse).body = Except.error e →
        response_to_http_response
            ⟨200, [("a", ["x"]), ("b", ["y", "z"]), ("c", [])], Except.ok [7]⟩
          = Except.error (Error.reqwest e) :=
  c4_normalization
    ⟨200, [("a", ["x"]), ("b", ["y", "z"]), ("c", [])], Except.ok [7]⟩
    (by decide)

/-- The names of the kept first values form a sublist of the slot
names. -/
theorem firstValues_keys_sublist (m : HeaderMap) :
    ((firstValues m).map Prod.fst).Sublist (m.map Prod.fst) := by
  induction m with
  | nil => simp [firstValues]
  | cons e rest ih =>
    rcases e with ⟨n, vs⟩
    cases vs with
    | nil =>
      simp only [firstValues, List.filterMap_cons, List.head?_nil, Option.map_none',
        List.map_cons]
      exact ih.cons n
    | cons v vtl =>
      simp only [firstValues, List.filterMap_cons, List.head?_cons, Option.map_some',
        List.map_cons]
      exact ih.cons₂ n

/-- Membership in the kept first values: an entry is kept exactly when
some slot of its name has it as first value. -/
theorem mem_firstValues (m : HeaderMap) (n v : String) :
    (n, v) ∈ firstValues m ↔ ∃ vs, (n, vs) ∈ m ∧ vs.head? = some v := by
  simp only [firstValues, List.mem_filterMap, Option.map_eq_some']
  constructor
  · rintro ⟨⟨n', vs'⟩, hmem, w, hw, heq⟩
    simp only [Prod.mk.injEq] at heq
    obtain ⟨rfl, rfl⟩ := heq
    exact ⟨vs', hmem, hw⟩
  · rintro ⟨vs, hmem, hv⟩
    exact ⟨(n, vs), hmem, v, hv, rfl⟩

/-- In a header map with distinct slot names, a name determines its
slot. -/
theorem nodup_keys_mem_unique {m : HeaderMap} (hwf : (m.map Prod.fst).Nodup)
    {n : String} {vs vs' : List String}
    (h1 : (n, vs) ∈ m) (h2 : (n, vs') ∈ m) : vs = vs' := by
  induction m with
  | nil => cases h1
  | cons e rest ih =>
    have hn : e.1 ∉ rest.map Prod.fst := (List.nodup_cons.mp (by simpa using hwf)).1
    have hrest : (rest.map Prod.fst).Nodup := (List.nodup_cons.mp (by simpa using hwf)).2
    rcases List.mem_cons.mp h1 with h1 | h1 <;> rcases List.mem_cons.mp h2 with h2 | h2
    · rw [← h1] at h2
      exact (congrArg Prod.snd h2).symm
    · exfalso
      have hmem : n ∈ rest.map Prod.fst := List.mem_map.mpr ⟨(n, vs'), h2, rfl⟩
      rw [← h1] at hn
      exact hn hmem
    · exfalso
      have hmem : n ∈ rest.map Prod.fst := List.mem_map.mpr ⟨(n, vs), h1, rfl⟩
      rw [← h2] at hn
      exact hn hmem
    · exact ih hrest h1 h2

/-- Claim C10: the canonical header collection keeps at most one value
per header name; for every slot of the transport response, an entry of
that name is in the collection exactly when it carries the slot's first
value, so the continuation values of every multi-valued header are
silently discarded. -/
theorem c10_first_value_kept (response : ReqwestResponse) (out : HttpResponse)
    (hwf : HeaderMap.wf response.headers)
    (h : response_to_http_response response = Except.ok out) :
    (out.headers.map Prod.fst).Nodup
    ∧ ∀ name values, (name, values) ∈ response.headers →
        ∀ v, ((name, v) ∈ out.headers ↔ values.head? = some v) := by
  have hh : collectHeaders (HeaderMap.drain response.headers) []
      = firstValues response.headers := by
    have h2 := collectHeaders_drain response.headers [] hwf (by simp)
    simpa using h2
  have hout : out.headers = firstValues response.headers := by
    unfold response_to_http_response at h
    cases hb : response.body with
    | error e =>
      rw [hb] at h
      simp at h
    | ok body =>
      rw [hb] at h
      simp only [Except.ok.injEq] at h
      rw [← h]
      simpa using hh
  refine ⟨?_, ?_⟩
  · rw [hout]
    exact List.Nodup.sublist (firstValues_keys_sublist response.headers) hwf
  · intro name values hmem v
    rw [hout, mem_firstValues]
    constructor
    · rintro ⟨vs, hvs, hv⟩
      rwa [nodup_keys_mem_unique hwf hvs hmem] at hv
    · intro hv
      exact ⟨values, hmem, hv⟩

/-- Claim C10 witness: a transport response with a two-valued header
normalizes to a collection keeping only its first value. -/
theorem c10_first_value_kept_witness :
    ((⟨200, [("x-dup", "first")], [1, 2]⟩ : HttpResponse).headers.map Prod.fst).Nodup
    ∧ ∀ name values,
        (name, values) ∈ (⟨200, [("x-dup", ["first", "second"])], Except.ok [1, 2]⟩
            : ReqwestResponse).headers →
        ∀ v, ((name, v) ∈ (⟨200, [("x-dup", "first")], [1, 2]⟩ : HttpResponse).headers
              ↔ values.head? = some v) :=
  c10_first_value_kept ⟨200, [("x-dup", ["first", "second"])], Except.ok [1, 2]⟩
    ⟨200, [("x-dup", "first")], [1, 2]⟩ (by decide) (by decide)
